import Mathlib

/-!
Verification development for the resume-parsing pipeline in
`src/main/main.js` of `jianli-parse-local`.

The JavaScript source is shallowly embedded here:
pure functions become Lean functions, `JSON.parse` is modelled by an
executable recursive-descent JSON parser, the regex-based code-fence
extraction is modelled by an explicit leftmost/shortest-match scanner,
and the stateful Electron handler (`parse-resume-pdf`) becomes a pure
function over an explicit environment that supplies the outcomes of the
I/O operations (file reads, PDF/DOCX decoding, model inference).
-/

namespace JianliParse

/-! ## JSON values

Model of the values produced by JavaScript's `JSON.parse`.  A numeric
literal is kept as a mantissa/decimal-exponent pair `m * 10^e`, which is
exact for every literal; the claims under study only involve integral
numbers, where this representation agrees with JavaScript numbers.
Objects keep their key/value pairs in textual order (JavaScript objects
preserve insertion order; the inputs considered here have no duplicate
keys). -/

inductive Json where
  | null : Json
  | bool (b : Bool) : Json
  | num (m : Int) (e : Int) : Json
  | str (s : String) : Json
  | arr (elems : List Json) : Json
  | obj (fields : List (String × Json)) : Json
  deriving Repr

/-- Structural decidable equality for `Json` (defined by hand because the
nested `List` occurrences defeat the automatic derivation). -/
def Json.beq : Json → Json → Bool
  | .null, .null => true
  | .bool a, .bool b => a == b
  | .num m e, .num m' e' => m == m' && e == e'
  | .str a, .str b => a == b
  | .arr a, .arr b => beqList a b
  | .obj a, .obj b => beqFields a b
  | _, _ => false
where
  beqList : List Json → List Json → Bool
    | [], [] => true
    | x :: xs, y :: ys => Json.beq x y && beqList xs ys
    | _, _ => false
  beqFields : List (String × Json) → List (String × Json) → Bool
    | [], [] => true
    | (k, v) :: xs, (k', v') :: ys => k == k' && Json.beq v v' && beqFields xs ys
    | _, _ => false

/-! ## A model of `JSON.parse`

Recursive descent over the character list, following the JSON grammar
(ECMA-404) that `JSON.parse` implements: optional whitespace
(space, tab, LF, CR) around tokens, the literals `null`/`true`/`false`,
double-quoted strings with the standard escapes, numbers
`-?(0|[1-9][0-9]*)(.[0-9]+)?([eE][+-]?[0-9]+)?`, arrays and objects.
Any leftover non-whitespace input makes the whole parse fail, as in
`JSON.parse`.  (A lone UTF-16 surrogate from a `\u` escape is not
representable as a Lean `Char`; it is replaced by U+FFFD.  No claim
depends on such inputs.) -/

def isJsonWs (c : Char) : Bool :=
  c = ' ' || c = '\t' || c = '\n' || c = '\r'

def skipWs : List Char → List Char
  | [] => []
  | c :: rest => if isJsonWs c then skipWs rest else c :: rest

def hexVal (c : Char) : Option Nat :=
  if '0' ≤ c ∧ c ≤ '9' then some (c.toNat - '0'.toNat)
  else if 'a' ≤ c ∧ c ≤ 'f' then some (c.toNat - 'a'.toNat + 10)
  else if 'A' ≤ c ∧ c ≤ 'F' then some (c.toNat - 'A'.toNat + 10)
  else none

/-- Decode the four hex digits of a `\uXXXX` escape. -/
def hex4 : List Char → Option (Nat × List Char)
  | a :: b :: c :: d :: rest => do
    let va ← hexVal a
    let vb ← hexVal b
    let vc ← hexVal c
    let vd ← hexVal d
    pure (((va * 16 + vb) * 16 + vc) * 16 + vd, rest)
  | _ => none

/-- Turn a code unit (possibly the start of a surrogate pair whose low half
follows as another `\u` escape) into a `Char` plus the remaining input. -/
def charOfUnit (n : Nat) (rest : List Char) : Char × List Char :=
  if 0xD800 ≤ n ∧ n ≤ 0xDBFF then
    match rest with
    | '\\' :: 'u' :: tail =>
      match hex4 tail with
      | some (lo, rest') =>
        if 0xDC00 ≤ lo ∧ lo ≤ 0xDFFF then
          (Char.ofNat (0x10000 + (n - 0xD800) * 0x400 + (lo - 0xDC00)), rest')
        else (Char.ofNat 0xFFFD, rest)
      | none => (Char.ofNat 0xFFFD, rest)
    | _ => (Char.ofNat 0xFFFD, rest)
  else if 0xDC00 ≤ n ∧ n ≤ 0xDFFF then (Char.ofNat 0xFFFD, rest)
  else (Char.ofNat n, rest)

/-- Parse the body of a JSON string (the opening quote already consumed),
returning the decoded characters and the input after the closing quote. -/
def parseStrChars (fuel : Nat) (cs : List Char) : Option (List Char × List Char) :=
  match fuel, cs with
  | 0, _ => none
  | _, [] => none
  | fuel + 1, c :: rest =>
    if c = '"' then some ([], rest)
    else if c = '\\' then
      match rest with
      | [] => none
      | e :: rest' =>
        let decoded : Option (Char × List Char) :=
          if e = '"' then some ('"', rest')
          else if e = '\\' then some ('\\', rest')
          else if e = '/' then some ('/', rest')
          else if e = 'b' then some (Char.ofNat 8, rest')
          else if e = 'f' then some (Char.ofNat 12, rest')
          else if e = 'n' then some ('\n', rest')
          else if e = 'r' then some ('\r', rest')
          else if e = 't' then some ('\t', rest')
          else if e = 'u' then
            match hex4 rest' with
            | some (n, rest'') => some (charOfUnit n rest'')
            | none => none
          else none
        match decoded with
        | some (ch, rest'') =>
          (parseStrChars fuel rest'').map fun (s, r) => (ch :: s, r)
        | none => none
    else if c.toNat < 0x20 then none
    else (parseStrChars fuel rest).map fun (s, r) => (c :: s, r)

def isDigit (c : Char) : Bool := '0' ≤ c && c ≤ '9'

/-- Longest prefix of decimal digits (must be nonempty). -/
def takeDigits : List Char → Option (List Char × List Char)
  | [] => none
  | c :: rest =>
    if isDigit c then
      match takeDigits rest with
      | some (ds, r) => some (c :: ds, r)
      | none => some ([c], rest)
    else none

def digitsToNat (ds : List Char) : Nat :=
  ds.foldl (fun acc c => acc * 10 + (c.toNat - '0'.toNat)) 0

/-- Parse a JSON number literal, producing its exact value `m * 10^e`. -/
def parseNumber (cs : List Char) : Option (Json × List Char) := do
  let (neg, cs₁) :=
    match cs with
    | '-' :: rest => (true, rest)
    | _ => (false, cs)
  let (intDs, cs₂) ← takeDigits cs₁
  -- JSON forbids leading zeros: the integer part is `0` or starts with 1-9.
  if intDs.length > 1 ∧ intDs.headI = '0' then none else
  let (fracDs, cs₃) ←
    match cs₂ with
    | '.' :: rest => (takeDigits rest).map fun (ds, r) => (ds, r)
    | _ => pure (([] : List Char), cs₂)
  let (expVal, cs₄) ←
    match cs₃ with
    | e :: rest =>
      if e = 'e' ∨ e = 'E' then
        match rest with
        | '+' :: rest' => (takeDigits rest').map fun (ds, r) => ((digitsToNat ds : Int), r)
        | '-' :: rest' => (takeDigits rest').map fun (ds, r) => (-(digitsToNat ds : Int), r)
        | _ => (takeDigits rest).map fun (ds, r) => ((digitsToNat ds : Int), r)
      else pure ((0 : Int), cs₃)
    | [] => pure ((0 : Int), cs₃)
  let mant : Int := (digitsToNat (intDs ++ fracDs) : Int)
  let mant := if neg then -mant else mant
  pure (Json.num mant (expVal - fracDs.length), cs₄)

mutual

/-- Parse one JSON value (leading whitespace allowed). -/
def parseValue (fuel : Nat) (cs : List Char) : Option (Json × List Char) :=
  match fuel with
  | 0 => none
  | fuel + 1 =>
    match skipWs cs with
    | 'n' :: 'u' :: 'l' :: 'l' :: rest => some (.null, rest)
    | 't' :: 'r' :: 'u' :: 'e' :: rest => some (.bool true, rest)
    | 'f' :: 'a' :: 'l' :: 's' :: 'e' :: rest => some (.bool false, rest)
    | '"' :: rest =>
      (parseStrChars rest.length.succ rest).map fun (s, r) => (.str (String.mk s), r)
    | '[' :: rest =>
      (match skipWs rest with
       | ']' :: rest' => some (.arr [], rest')
       | _ => (parseElems fuel rest).map fun (es, r) => (.arr es, r))
    | '{' :: rest =>
      (match skipWs rest with
       | '}' :: rest' => some (.obj [], rest')
       | _ => (parseMembers fuel rest).map fun (fs, r) => (.obj fs, r))
    | other => parseNumber other

/-- Parse the elements of a (nonempty) array, up to and including `]`. -/
def parseElems (fuel : Nat) (cs : List Char) : Option (List Json × List Char) :=
  match fuel with
  | 0 => none
  | fuel + 1 => do
    let (v, rest) ← parseValue fuel cs
    match skipWs rest with
    | ',' :: rest' => (parseElems fuel rest').map fun (es, r) => (v :: es, r)
    | ']' :: rest' => some ([v], rest')
    | _ => none

/-- Parse the members of a (nonempty) object, up to and including the
closing brace. -/
def parseMembers (fuel : Nat) (cs : List Char) : Option (List (String × Json) × List Char) :=
  match fuel with
  | 0 => none
  | fuel + 1 => do
    match skipWs cs with
    | '"' :: rest =>
      let (ks, rest₁) ← parseStrChars rest.length.succ rest
      match skipWs rest₁ with
      | ':' :: rest₂ => do
        let (v, rest₃) ← parseValue fuel rest₂
        match skipWs rest₃ with
        | ',' :: rest₄ =>
          (parseMembers fuel rest₄).map fun (fs, r) => ((String.mk ks, v) :: fs, r)
        | '}' :: rest₄ => some ([(String.mk ks, v)], rest₄)
        | _ => none
      | _ => none
    | _ => none

end

/-- Model of `JSON.parse(text)`: `some` value on success, `none` when
`JSON.parse` would throw a `SyntaxError` (including trailing garbage). -/
def jsonParse (s : String) : Option Json :=
  match parseValue (s.length + 1) s.data with
  | some (v, rest) => if skipWs rest = [] then some v else none
  | none => none

/-- JavaScript truthiness of a value produced by `JSON.parse`: `null`,
`false`, `0` and `""` are falsy, everything else (including `[]` and
`{}`) is truthy. -/
def jsTruthy : Json → Bool
  | .null => false
  | .bool b => b
  | .num m _ => m ≠ 0
  | .str s => s ≠ ""
  | .arr _ => true
  | .obj _ => true

/-! ## Code-fence extraction

`main.js:32` runs
`text.match(/<fence>json([\s\S]*?)<fence>/i) || text.match(/<fence>([\s\S]*?)<fence>/i)`
where `<fence>` is three backquotes.  With a lazy group, a `match` yields
the leftmost occurrence of the opening token that has a closing token
after it, paired with the shortest such closing token.  `subAfter`
realises "leftmost occurrence of a token, split around it"; composing two
of them reproduces the regex semantics (if the first opening token has no
closing token anywhere after it, no later opening token can have one
either, since any later opening token itself begins with the closing
token's characters). -/

def backquote : Char := Char.ofNat 96

/-- Case-insensitive character comparison, as the regex `i` flag gives. -/
def charEqCI (a b : Char) : Bool := a.toLower = b.toLower

def startsWithCI (ci : Bool) : List Char → List Char → Bool
  | [], _ => true
  | _ :: _, [] => false
  | p :: ps, s :: ss =>
    (if ci then charEqCI p s else p = s) && startsWithCI ci ps ss

/-- Split `s` around the leftmost occurrence of the (nonempty) token
`pat`: `some (before, after)` with `s = before ++ <pat> ++ after`. -/
def subAfter (ci : Bool) (pat : List Char) : List Char → Option (List Char × List Char)
  | [] => none
  | c :: rest =>
    if startsWithCI ci pat (c :: rest) then some ([], (c :: rest).drop pat.length)
    else (subAfter ci pat rest).map fun p => (c :: p.1, p.2)

def fenceTok : List Char := [backquote, backquote, backquote]

def jsonFenceTok : List Char := fenceTok ++ ['j', 's', 'o', 'n']

/-- `text.match(/<fence>json([\s\S]*?)<fence>/i)`: the captured group. -/
def matchJsonFence (s : List Char) : Option (List Char) :=
  match subAfter true jsonFenceTok s with
  | none => none
  | some opened =>
    match subAfter false fenceTok opened.2 with
    | none => none
    | some closed => some closed.1

/-- `text.match(/<fence>([\s\S]*?)<fence>/i)`: the captured group. -/
def matchPlainFence (s : List Char) : Option (List Char) :=
  match subAfter false fenceTok s with
  | none => none
  | some opened =>
    match subAfter false fenceTok opened.2 with
    | none => none
    | some closed => some closed.1

/-- `main.js:32-35`: when either regex matches, the working text becomes
the captured fence contents; otherwise it stays unchanged. -/
def stripFence (s : List Char) : List Char :=
  match matchJsonFence s with
  | some content => content
  | none =>
    match matchPlainFence s with
    | some content => content
    | none => s

/-- `main.js:37-40`: `text.indexOf(<lbrace>)`, `text.lastIndexOf(<rbrace>)`;
when both exist and the last closing brace is strictly after the first
opening brace, the inclusive slice between them. -/
def braceSpan (text : List Char) : Option (List Char) :=
  match List.findIdx? (fun c => c = '{') text,
        List.findIdx? (fun c => c = '}') text.reverse with
  | some fb, some rb =>
    let lb := text.length - 1 - rb
    if fb < lb then some ((text.drop fb).take (lb + 1 - fb)) else none
  | _, _ => none

/-! ## The reply normalizer `parseModelReplyToJson` (`main.js:8-48`)

The chat session's reply is a string, so the embedding takes a `String`
argument; the guards at `main.js:9-15` (non-string replies) lie outside
this domain.  The JavaScript `tryParse` returns `null` when `JSON.parse`
throws, and the call sites test the result with `if (parsed)`, which
rejects both that `null` and any falsy parsed value; `truthyParse`
captures exactly the values that pass such a test. -/

def tryParse (t : String) : Option Json := jsonParse t

def truthyParse (t : String) : Option Json :=
  match tryParse t with
  | some j => if jsTruthy j then some j else none
  | none => none

/-- `main.js:14,47`: the fallback record `{ raw: reply }`. -/
def sentinel (reply : String) : Json := Json.obj [("raw", Json.str reply)]

def parseModelReplyToJson (reply : String) : Json :=
  match truthyParse reply with
  | some parsed => parsed
  | none =>
    let text := stripFence reply.data
    match braceSpan text with
    | some jsonSlice =>
      match truthyParse (String.mk jsonSlice) with
      | some parsed => parsed
      | none => sentinel reply
    | none => sentinel reply

/-! ## `extname` and the document text extractor (`main.js:50-65`)

`extname` models Node's `path.extname` (win32 flavour, as both `/` and
`\` separate path segments): the extension runs from the last `.` of the
base name to the end, except that a dot in first position of the base
name (hidden files) and the base name `..` give no extension. -/

/-- The base name: everything after the last path separator. -/
def baseNm (p : List Char) : List Char :=
  (p.reverse.takeWhile (fun c => ¬(c = '/' ∨ c = '\\'))).reverse

def extname (p : String) : String :=
  let b := baseNm p.data
  match List.findIdx? (fun c => c = '.') b.reverse with
  | none => ""
  | some r =>
    let i := b.length - 1 - r
    if i = 0 then ""
    else if i = b.length - 1 ∧ i = 1 ∧ b.headI = '.' then ""
    else String.mk (b.drop i)

/-- Model of JavaScript's `String.prototype.toLowerCase()` (characterwise
lower-casing; for the ASCII file extensions at issue this coincides with
the JavaScript behaviour). -/
def jsToLowerCase (s : String) : String := String.mk (s.data.map Char.toLower)

/-- Outcomes of the I/O performed by the extractor: `fs.promises.readFile`
(`β` is the buffer type), `pdf(buffer)` projected to its `.text` field,
and `mammoth.extractRawText({buffer})` projected to its `.value` field
(`none` models a missing/undefined field, which `|| ''` turns into the
empty string). -/
structure FsEnv (β : Type) where
  readFile : String → Except String β
  pdfText : β → Except String (Option String)
  docxRawText : β → Except String (Option String)

def extractTextFromResumeFile (env : FsEnv β) (filePath : String) :
    Except String String :=
  match env.readFile filePath with
  | .error e => .error e
  | .ok buffer =>
    let extension := jsToLowerCase (extname filePath)
    if extension = ".pdf" then
      match env.pdfText buffer with
      | .error e => .error e
      | .ok dataText => .ok (dataText.getD "")
    else if extension = ".docx" then
      match env.docxRawText buffer with
      | .error e => .error e
      | .ok resultValue => .ok (resultValue.getD "")
    else .ok ""

/-! ## The inference session (`main.js:67-117`)

The three module-level variables `llamaModel`, `llamaContext` and
`chatSession` form the mutable state; the opaque library handles are
numbered.  The environment supplies the outcomes of `resolveModelPath`
(which throws when the model file is absent), the dynamic import plus
`getLlama()`, `llama.loadModel`, `model.createContext()` and
`new LlamaChatSession({contextSequence: context.getSequence()})`.
`initModel` returns the updated state (the source assigns each global as
its `await` resolves, so a failure partway leaves a partial state), the
number of `loadModel` calls made, and the error if one was thrown. -/

structure LlamaState where
  llamaModel : Option Nat
  llamaContext : Option Nat
  chatSession : Option Nat
  deriving Repr, DecidableEq

def LlamaState.isLoaded (s : LlamaState) : Bool :=
  s.llamaModel.isSome && s.llamaContext.isSome && s.chatSession.isSome

structure LlamaEnv where
  resolveModelPath : Except String String
  getLlama : Except String Nat
  loadModel : Nat → String → Except String Nat
  createContext : Nat → Except String Nat
  newChatSession : Nat → Except String Nat

def initModel (env : LlamaEnv) (s : LlamaState) : LlamaState × Nat × Option String :=
  if s.isLoaded then (s, 0, none)
  else
    match env.resolveModelPath with
    | .error e => (s, 0, some e)
    | .ok modelPath =>
      match env.getLlama with
      | .error e => (s, 0, some e)
      | .ok llama =>
        match env.loadModel llama modelPath with
        | .error e => (s, 1, some e)
        | .ok model =>
          let s₁ := { s with llamaModel := some model }
          match env.createContext model with
          | .error e => (s₁, 1, some e)
          | .ok ctx =>
            let s₂ := { s₁ with llamaContext := some ctx }
            match env.newChatSession ctx with
            | .error e => (s₂, 1, some e)
            | .ok sess => ({ s₂ with chatSession := some sess }, 1, none)

/-! ## Prompt construction (`main.js:269-276`)

The template literal around the extracted text, reproduced verbatim
(braces written as escapes). -/

def promptHeader : String :=
  "你是一个中文简历解析助手。请从下面的简历文本中提取候选人的姓名、性别、年龄、最高学历、手机号码和邮箱地址，并严格按照以下 JSON 格式返回：\n\n\x7b\n  \"name\": \"姓名或null\",\n  \"gender\": \"性别字符串（\"男\"、\"女\" 或 null）\",\n  \"age\": 年龄数字或null,\n  \"education\": \"最高学历字符串（如\"大专\"、\"本科\"、\"硕士\"，或 null）\",\n  \"phone\": \"手机号字符串或null\",\n  \"email\": \"邮箱字符串或null\"\n\x7d\n\n不要返回任何解释性文字，只返回 JSON,重要声明，如果找不到对应的内容就填入null,年龄必须有明确的xx岁或者年龄：xxx岁，才能填入，不要考虑出生日期，性别必须有明确文字才能写入，不能靠推断。\n\n--- 简历文本开始 ---\n"

def promptFooter : String := "\n--- 简历文本结束 ---"

def promptOf (text : String) : String := promptHeader ++ text ++ promptFooter

/-! ## The `parse-resume-pdf` handler (`main.js:243-305`)

The per-file loop is embedded as `processDocs`, which records the
session-affecting steps as an explicit trace: `resetChatHistory()`,
`chatSession.prompt(...)` and the `resume-item-parsed` event sent to the
first renderer window (sent only when a window exists).  The loop body
has no try/catch of its own: a rejected `await` aborts the loop and is
rethrown by the handler's outer catch. -/

inductive BatchAction where
  | reset : BatchAction
  | prompt (filePath : String) : BatchAction
  | emit (filePath : String) (result : Json) : BatchAction
  deriving Repr

structure ChatEnv where
  promptReply : String → Except String String

structure BatchEnv (β : Type) where
  fs : FsEnv β
  chat : ChatEnv
  hasWindow : Bool

def processDocs (env : BatchEnv β) (paths : List String) :
    List BatchAction × Except String Unit :=
  match paths with
  | [] => ([], .ok ())
  | filePath :: rest =>
    match extractTextFromResumeFile env.fs filePath with
    | .error e => ([], .error e)
    | .ok text =>
      match env.chat.promptReply (promptOf text) with
      | .error e => ([.reset], .error e)
      | .ok reply =>
        let parsed := parseModelReplyToJson reply
        let emits := if env.hasWindow then [BatchAction.emit filePath parsed] else []
        (BatchAction.reset :: BatchAction.prompt filePath ::
          (emits ++ (processDocs env rest).1),
         (processDocs env rest).2)

/-- One document's pipeline run in isolation (extract → prompt → normalize);
used to phrase which documents of a batch would succeed on their own. -/
def processOneDoc (env : BatchEnv β) (filePath : String) : Except String Json :=
  match extractTextFromResumeFile env.fs filePath with
  | .error e => .error e
  | .ok text =>
    match env.chat.promptReply (promptOf text) with
    | .error e => .error e
    | .ok reply => .ok (parseModelReplyToJson reply)

inductive HandlerOutcome where
  | canceled : HandlerOutcome
  | ok : HandlerOutcome
  | error (e : String) : HandlerOutcome
  deriving Repr, DecidableEq

/-- The `parse-resume-pdf` IPC handler.  `given` is the renderer's
argument when it is an array (`main.js:245`); `dialogPaths` is the
outcome of the fallback open dialog (`none` when canceled).  Returns the
final session state, the trace of session/renderer actions, and the
handler's outcome (`error` models the rethrow at `main.js:303`). -/
def parseResumePdfHandler (lenv : LlamaEnv) (env : BatchEnv β)
    (dialogPaths : Option (List String)) (s : LlamaState)
    (given : Option (List String)) :
    LlamaState × List BatchAction × HandlerOutcome :=
  let dialogPick : Option (List String) :=
    match dialogPaths with
    | some ps => if ps.isEmpty then none else some ps
    | none => none
  let chosen : Option (List String) :=
    match given with
    | some ps => if ps.isEmpty then dialogPick else some ps
    | none => dialogPick
  match chosen with
  | none => (s, [], .canceled)
  | some filePaths =>
    let after : LlamaState × Option String :=
      if s.isLoaded then (s, none)
      else ((initModel lenv s).1, (initModel lenv s).2.2)
    match after.2 with
    | some e => (after.1, [], .error e)
    | none =>
      match (processDocs env filePaths).2 with
      | .error e => (after.1, (processDocs env filePaths).1, .error e)
      | .ok _ => (after.1, (processDocs env filePaths).1, .ok)

/-- The document identities of the `resume-item-parsed` events of a
trace, in emission order. -/
def emittedPaths (acts : List BatchAction) : List String :=
  acts.filterMap fun a =>
    match a with
    | .emit p _ => some p
    | _ => none

/-- `true` when every `prompt` in the trace is immediately preceded by a
`reset`: each document's inference starts from a cleared history. -/
def promptsResetBefore : List BatchAction → Bool
  | [] => true
  | .reset :: .prompt _ :: rest => promptsResetBefore rest
  | .prompt _ :: _ => false
  | _ :: rest => promptsResetBefore rest

/-! ## Spec-side notions used to state the claims -/

/-- Record-shaped in the sense of the spec: a JSON object. -/
def isRecord : Json → Bool
  | .obj _ => true
  | _ => false

def lookupField (fields : List (String × Json)) (key : String) : Option Json :=
  match fields with
  | [] => none
  | (k, v) :: rest => if k = key then some v else lookupField rest key

def isNullOrStr : Option Json → Bool
  | some .null => true
  | some (.str _) => true
  | _ => false

def isNullOrNum : Option Json → Bool
  | some .null => true
  | some (.num _ _) => true
  | _ => false

/-- The six-field `ResumeRecord` schema of the spec: an object whose
`name`, `gender`, `education`, `phone`, `email` fields are strings or
null and whose `age` field is a number or null. -/
def isResumeRecordJson : Json → Bool
  | .obj fields =>
    isNullOrStr (lookupField fields "name") &&
    isNullOrStr (lookupField fields "gender") &&
    isNullOrNum (lookupField fields "age") &&
    isNullOrStr (lookupField fields "education") &&
    isNullOrStr (lookupField fields "phone") &&
    isNullOrStr (lookupField fields "email")
  | _ => false

/-- Strategy 1 of the claimed chain: direct parse of the whole reply. -/
def directStrategy (reply : String) : Option Json := truthyParse reply

/-- Strategy of `main.js:37-45`: brace-span slice of the (possibly
fence-stripped) text, parsed. -/
def braceStrategy (reply : String) : Option Json :=
  match braceSpan (stripFence reply.data) with
  | some jsonSlice => truthyParse (String.mk jsonSlice)
  | none => none

/-- Modelled from claim C4's wording (not from the source): its step (2)
extracts a fenced code block (preferring a json-tagged fence) and
*parses the fence contents*; only "if that fails" does step (3) slice
from the first opening to the last closing brace of the fence-stripped
text.  Kept for comparison with `parseModelReplyToJson`, which never
parses the fence contents as a whole. -/
def claimedNormalize (reply : String) : Json :=
  match truthyParse reply with
  | some j => j
  | none =>
    match (matchJsonFence reply.data).orElse (fun _ => matchPlainFence reply.data) with
    | some content =>
      match truthyParse (String.mk content) with
      | some j => j
      | none =>
        match braceSpan content with
        | some jsonSlice => (truthyParse (String.mk jsonSlice)).getD (sentinel reply)
        | none => sentinel reply
    | none =>
      match braceSpan reply.data with
      | some jsonSlice => (truthyParse (String.mk jsonSlice)).getD (sentinel reply)
      | none => sentinel reply

/-! ## Concrete sample inputs for witnesses and counterexamples -/

/-- A file system in which `b.pdf` cannot be read and every other file
reads fine; PDF and DOCX decoding succeed with fixed text. -/
def fsSample : FsEnv String where
  readFile := fun p =>
    if p = "b.pdf" then .error "ENOENT: no such file" else .ok ("content of " ++ p)
  pdfText := fun _ => .ok (some "PDFTEXT")
  docxRawText := fun _ => .ok (some "DOCXTEXT")

/-- A model that always answers with the unparsable reply `"ok"`. -/
def chatSample : ChatEnv where
  promptReply := fun _ => .ok "ok"

def envSample : BatchEnv String where
  fs := fsSample
  chat := chatSample
  hasWindow := true

def envNoWindow : BatchEnv String where
  fs := fsSample
  chat := chatSample
  hasWindow := false

def lenvSample : LlamaEnv where
  resolveModelPath := .ok "/home/user/jianli-jiexi-models/Qwen3-4B-IQ4_NL.gguf"
  getLlama := .ok 1
  loadModel := fun _ _ => .ok 2
  createContext := fun _ => .ok 3
  newChatSession := fun _ => .ok 4

def emptyState : LlamaState where
  llamaModel := none
  llamaContext := none
  chatSession := none

def warmState : LlamaState where
  llamaModel := some 2
  llamaContext := some 3
  chatSession := some 4

/-- A reply that already is the six-field JSON record. -/
def sampleRecordText : String :=
  "\x7b\"name\":\"张三\",\"gender\":\"男\",\"age\":30,\"education\":\"本科\",\"phone\":\"13800138000\",\"email\":\"a@b.com\"\x7d"

def sampleRecordJson : Json :=
  .obj [("name", .str "张三"), ("gender", .str "男"), ("age", .num 30 0),
        ("education", .str "本科"), ("phone", .str "13800138000"),
        ("email", .str "a@b.com")]

/-- A reply whose json-tagged code fence contains valid JSON (`42`) that
is not an object. -/
def fencedFortyTwo : String := "```json\n42\n```"

/-! ## Helper lemmas -/

theorem truthyParse_truthy {t : String} {j : Json} (h : truthyParse t = some j) :
    jsTruthy j = true := by
  unfold truthyParse at h
  cases hp : tryParse t with
  | none => rw [hp] at h; exact absurd h (by simp)
  | some j' =>
    rw [hp] at h
    dsimp only at h
    by_cases ht : jsTruthy j' = true
    · rw [if_pos ht] at h
      cases h
      exact ht
    · rw [if_neg ht] at h
      exact absurd h (by simp)

/-- Case equation: a truthy direct parse is returned as-is. -/
theorem parseModelReplyToJson_of_direct {reply : String} {j : Json}
    (h : truthyParse reply = some j) : parseModelReplyToJson reply = j := by
  unfold parseModelReplyToJson
  rw [h]

/-- Case equation: when the direct parse fails the truthiness test and a
brace span exists in the fence-stripped text, the result is the parsed
slice if truthy, the sentinel otherwise. -/
theorem parseModelReplyToJson_of_slice {reply : String} {jsonSlice : List Char}
    (h : truthyParse reply = none)
    (hb : braceSpan (stripFence reply.data) = some jsonSlice) :
    parseModelReplyToJson reply =
      (truthyParse (String.mk jsonSlice)).getD (sentinel reply) := by
  unfold parseModelReplyToJson
  rw [h]
  dsimp only
  rw [hb]
  dsimp only
  cases truthyParse (String.mk jsonSlice) <;> rfl

/-- Case equation: no truthy direct parse and no brace span yields the
sentinel. -/
theorem parseModelReplyToJson_of_nobrace {reply : String}
    (h : truthyParse reply = none)
    (hb : braceSpan (stripFence reply.data) = none) :
    parseModelReplyToJson reply = sentinel reply := by
  unfold parseModelReplyToJson
  rw [h]
  dsimp only
  rw [hb]

/-- The normalizer's result is always JavaScript-truthy (either a value
that passed an `if (parsed)` test or the sentinel object). -/
theorem parseModelReplyToJson_truthy (reply : String) :
    jsTruthy (parseModelReplyToJson reply) = true := by
  cases h : truthyParse reply with
  | some j => rw [parseModelReplyToJson_of_direct h]; exact truthyParse_truthy h
  | none =>
    cases hb : braceSpan (stripFence reply.data) with
    | some jsonSlice =>
      rw [parseModelReplyToJson_of_slice h hb]
      cases hs : truthyParse (String.mk jsonSlice) with
      | some j => exact truthyParse_truthy hs
      | none => rfl
    | none => rw [parseModelReplyToJson_of_nobrace h hb]; rfl

theorem subAfter_snd_sub (ci : Bool) (pat : List Char) :
    ∀ (s b a : List Char), subAfter ci pat s = some (b, a) → ∀ c ∈ a, c ∈ s := by
  intro s
  induction s with
  | nil => intro b a h; simp [subAfter] at h
  | cons x rest ih =>
    intro b a h c hc
    rw [subAfter] at h
    split at h
    · simp only [Option.some.injEq, Prod.mk.injEq] at h
      rw [← h.2] at hc
      exact List.mem_of_mem_drop hc
    · cases hrec : subAfter ci pat rest with
      | none => rw [hrec] at h; exact absurd h (by simp)
      | some pr =>
        rw [hrec] at h
        dsimp only [Option.map] at h
        simp only [Option.some.injEq, Prod.mk.injEq] at h
        rw [← h.2] at hc
        exact List.mem_cons_of_mem _ (ih pr.1 pr.2 hrec c hc)

theorem subAfter_fst_sub (ci : Bool) (pat : List Char) :
    ∀ (s b a : List Char), subAfter ci pat s = some (b, a) → ∀ c ∈ b, c ∈ s := by
  intro s
  induction s with
  | nil => intro b a h; simp [subAfter] at h
  | cons x rest ih =>
    intro b a h c hc
    rw [subAfter] at h
    split at h
    · simp only [Option.some.injEq, Prod.mk.injEq] at h
      rw [← h.1] at hc
      exact absurd hc (List.not_mem_nil c)
    · cases hrec : subAfter ci pat rest with
      | none => rw [hrec] at h; exact absurd h (by simp)
      | some pr =>
        rw [hrec] at h
        dsimp only [Option.map] at h
        simp only [Option.some.injEq, Prod.mk.injEq] at h
        rw [← h.1] at hc
        cases hc with
        | head => exact List.mem_cons_self x rest
        | tail _ hc' => exact List.mem_cons_of_mem _ (ih pr.1 pr.2 hrec c hc')

theorem mem_of_matchJsonFence {s content : List Char}
    (h : matchJsonFence s = some content) : ∀ c ∈ content, c ∈ s := by
  unfold matchJsonFence at h
  cases h1 : subAfter true jsonFenceTok s with
  | none => rw [h1] at h; exact absurd h (by simp)
  | some opened =>
    rw [h1] at h
    dsimp only at h
    cases h2 : subAfter false fenceTok opened.2 with
    | none => rw [h2] at h; exact absurd h (by simp)
    | some closed =>
      rw [h2] at h
      dsimp only at h
      cases h
      intro c hc
      exact subAfter_snd_sub true jsonFenceTok s opened.1 opened.2 (by rw [h1]) c
        (subAfter_fst_sub false fenceTok opened.2 closed.1 closed.2 (by rw [h2]) c hc)

theorem mem_of_matchPlainFence {s content : List Char}
    (h : matchPlainFence s = some content) : ∀ c ∈ content, c ∈ s := by
  unfold matchPlainFence at h
  cases h1 : subAfter false fenceTok s with
  | none => rw [h1] at h; exact absurd h (by simp)
  | some opened =>
    rw [h1] at h
    dsimp only at h
    cases h2 : subAfter false fenceTok opened.2 with
    | none => rw [h2] at h; exact absurd h (by simp)
    | some closed =>
      rw [h2] at h
      dsimp only at h
      cases h
      intro c hc
      exact subAfter_snd_sub false fenceTok s opened.1 opened.2 (by rw [h1]) c
        (subAfter_fst_sub false fenceTok opened.2 closed.1 closed.2 (by rw [h2]) c hc)

theorem mem_of_stripFence {s : List Char} {c : Char} (h : c ∈ stripFence s) : c ∈ s := by
  unfold stripFence at h
  cases hj : matchJsonFence s with
  | some content => rw [hj] at h; exact mem_of_matchJsonFence hj c h
  | none =>
    rw [hj] at h
    cases hp : matchPlainFence s with
    | some content => rw [hp] at h; exact mem_of_matchPlainFence hp c h
    | none => rw [hp] at h; exact h

theorem braceSpan_eq_none_of_no_lbrace {text : List Char} (h : '{' ∉ text) :
    braceSpan text = none := by
  have hf : List.findIdx? (fun c => c = '{') text = none := by
    rw [List.findIdx?_eq_none_iff]
    intro x hx
    simp only [decide_eq_false_iff_not]
    intro hx'
    exact h (hx' ▸ hx)
  unfold braceSpan
  rw [hf]

theorem emittedPaths_reset (l : List BatchAction) :
    emittedPaths (BatchAction.reset :: l) = emittedPaths l := rfl

theorem emittedPaths_prompt (p : String) (l : List BatchAction) :
    emittedPaths (BatchAction.prompt p :: l) = emittedPaths l := rfl

theorem emittedPaths_emit (p : String) (j : Json) (l : List BatchAction) :
    emittedPaths (BatchAction.emit p j :: l) = p :: emittedPaths l := rfl

theorem prb_reset_prompt (p : String) (l : List BatchAction) :
    promptsResetBefore (BatchAction.reset :: BatchAction.prompt p :: l) =
      promptsResetBefore l := rfl

theorem prb_emit (p : String) (j : Json) (l : List BatchAction) :
    promptsResetBefore (BatchAction.emit p j :: l) = promptsResetBefore l := rfl

theorem processDocs_cons_of_extract_error {env : BatchEnv β} {p e : String}
    (h : extractTextFromResumeFile env.fs p = .error e) (rest : List String) :
    processDocs env (p :: rest) = ([], .error e) := by
  unfold processDocs
  rw [h]

theorem processDocs_cons_of_reply_error {env : BatchEnv β} {p text e : String}
    (hx : extractTextFromResumeFile env.fs p = .ok text)
    (hp : env.chat.promptReply (promptOf text) = .error e) (rest : List String) :
    processDocs env (p :: rest) = ([BatchAction.reset], .error e) := by
  unfold processDocs
  rw [hx]
  dsimp only
  rw [hp]

theorem processDocs_cons_of_ok {env : BatchEnv β} {p : String} {j : Json}
    (h : processOneDoc env p = .ok j) (rest : List String) :
    processDocs env (p :: rest) =
      (BatchAction.reset :: BatchAction.prompt p ::
        ((if env.hasWindow then [BatchAction.emit p j] else []) ++
          (processDocs env rest).1),
       (processDocs env rest).2) := by
  unfold processOneDoc at h
  conv_lhs => unfold processDocs
  cases he : extractTextFromResumeFile env.fs p with
  | error e =>
    rw [he] at h
    exact Except.noConfusion (show Except.error e = Except.ok j from h)
  | ok text =>
    rw [he] at h
    dsimp only at h ⊢
    cases hp : env.chat.promptReply (promptOf text) with
    | error e =>
      rw [hp] at h
      exact Except.noConfusion (show Except.error e = Except.ok j from h)
    | ok reply =>
      rw [hp] at h
      have h' : Except.ok (parseModelReplyToJson reply) = Except.ok j := h
      cases h'
      rfl

theorem prb_processDocs (env : BatchEnv β) :
    ∀ paths : List String, promptsResetBefore (processDocs env paths).1 = true := by
  intro paths
  induction paths with
  | nil => rfl
  | cons p rest ih =>
    cases he : extractTextFromResumeFile env.fs p with
    | error e => rw [processDocs_cons_of_extract_error he]; rfl
    | ok text =>
      cases hp : env.chat.promptReply (promptOf text) with
      | error e => rw [processDocs_cons_of_reply_error he hp]; rfl
      | ok reply =>
        have hd : processOneDoc env p = .ok (parseModelReplyToJson reply) := by
          unfold processOneDoc
          rw [he]
          dsimp only
          rw [hp]
        rw [processDocs_cons_of_ok hd]
        dsimp only
        cases hw : env.hasWindow with
        | true =>
          rw [if_pos rfl]
          rw [show ([BatchAction.emit p (parseModelReplyToJson reply)] ++
            (processDocs env rest).1) = BatchAction.emit p (parseModelReplyToJson reply) ::
              (processDocs env rest).1 from rfl]
          rw [prb_reset_prompt, prb_emit]
          exact ih
        | false =>
          rw [if_neg (by simp)]
          rw [List.nil_append, prb_reset_prompt]
          exact ih

theorem emittedPaths_processDocs_ok (env : BatchEnv β) (hw : env.hasWindow = true) :
    ∀ paths : List String, (processDocs env paths).2 = Except.ok () →
      emittedPaths (processDocs env paths).1 = paths := by
  intro paths
  induction paths with
  | nil => intro _; rfl
  | cons p rest ih =>
    intro hok
    cases he : extractTextFromResumeFile env.fs p with
    | error e =>
      rw [processDocs_cons_of_extract_error he] at hok
      exact absurd hok (by simp)
    | ok text =>
      cases hp : env.chat.promptReply (promptOf text) with
      | error e =>
        rw [processDocs_cons_of_reply_error he hp] at hok
        exact absurd hok (by simp)
      | ok reply =>
        have hd : processOneDoc env p = .ok (parseModelReplyToJson reply) := by
          unfold processOneDoc
          rw [he]
          dsimp only
          rw [hp]
        rw [processDocs_cons_of_ok hd] at hok ⊢
        dsimp only at hok ⊢
        rw [hw]
        rw [if_pos rfl]
        rw [show ([BatchAction.emit p (parseModelReplyToJson reply)] ++
          (processDocs env rest).1) = BatchAction.emit p (parseModelReplyToJson reply) ::
            (processDocs env rest).1 from rfl]
        rw [emittedPaths_reset, emittedPaths_prompt, emittedPaths_emit]
        rw [ih hok]

theorem processDocs_fail_on_doc (env : BatchEnv β) (hw : env.hasWindow = true)
    {p e : String} (hfail : extractTextFromResumeFile env.fs p = .error e) :
    ∀ (pre : List String), (∀ q ∈ pre, ∃ j, processOneDoc env q = Except.ok j) →
      ∀ post : List String,
        (processDocs env (pre ++ p :: post)).2 = .error e ∧
        emittedPaths (processDocs env (pre ++ p :: post)).1 = pre := by
  intro pre
  induction pre with
  | nil =>
    intro _ post
    rw [List.nil_append, processDocs_cons_of_extract_error hfail]
    exact ⟨rfl, rfl⟩
  | cons q pre' ih =>
    intro hpre post
    obtain ⟨j, hq⟩ := hpre q (List.mem_cons_self q pre')
    have hpre' : ∀ r ∈ pre', ∃ j, processOneDoc env r = Except.ok j :=
      fun r hr => hpre r (List.mem_cons_of_mem q hr)
    rw [List.cons_append, processDocs_cons_of_ok hq]
    dsimp only
    rw [hw, if_pos rfl]
    rw [show ([BatchAction.emit q j] ++ (processDocs env (pre' ++ p :: post)).1) =
      BatchAction.emit q j :: (processDocs env (pre' ++ p :: post)).1 from rfl]
    rw [emittedPaths_reset, emittedPaths_prompt, emittedPaths_emit]
    obtain ⟨h1, h2⟩ := ih hpre' post
    exact ⟨h1, by rw [h2]⟩

theorem handler_runs_loop {β : Type} (lenv : LlamaEnv) (env : BatchEnv β)
    (dialogPaths : Option (List String)) (s : LlamaState)
    (paths : List String) (hne : paths ≠ []) (hs : s.isLoaded = true) :
    parseResumePdfHandler lenv env dialogPaths s (some paths) =
      (s, (processDocs env paths).1,
        match (processDocs env paths).2 with
        | Except.error e => HandlerOutcome.error e
        | Except.ok _ => HandlerOutcome.ok) := by
  cases paths with
  | nil => exact absurd rfl hne
  | cons p rest =>
    unfold parseResumePdfHandler
    dsimp only
    rw [if_pos hs]
    rw [if_neg (show ¬((p :: rest).isEmpty = true) by simp)]
    dsimp only
    cases hres : (processDocs env (p :: rest)).2 with
    | error e => rfl
    | ok u => rfl

/-! ## The claims -/

/-- C3 counterexample: the reply `"[]"` is decoded to a JSON array, which
is neither record-shaped nor the sentinel, refuting "always returns a
record-shaped value". -/
theorem normalize_not_record_shaped_cex :
    parseModelReplyToJson "[]" = Json.arr [] ∧
      isRecord (parseModelReplyToJson "[]") = false := ⟨rfl, rfl⟩

/-- C3 (amended): the reply normalizer is total on reply strings — for
every reply it returns a value without failing: either a truthy JSON
value that one of its parse stages produced (not necessarily
record-shaped), or the raw-reply sentinel record. -/
theorem normalize_total_amended (reply : String) :
    (∃ t, truthyParse t = some (parseModelReplyToJson reply)) ∨
      parseModelReplyToJson reply = sentinel reply := by
  cases h : truthyParse reply with
  | some j =>
    exact Or.inl ⟨reply, by rw [parseModelReplyToJson_of_direct h, h]⟩
  | none =>
    cases hb : braceSpan (stripFence reply.data) with
    | some jsonSlice =>
      cases hs : truthyParse (String.mk jsonSlice) with
      | some j =>
        refine Or.inl ⟨String.mk jsonSlice, ?_⟩
        rw [parseModelReplyToJson_of_slice h hb, hs]
        rfl
      | none =>
        right
        rw [parseModelReplyToJson_of_slice h hb, hs]
        rfl
    | none => exact Or.inr (parseModelReplyToJson_of_nobrace h hb)

/-- C4 counterexample: for the reply whose json-tagged fence contains
`42`, the claimed chain (which parses the fence contents as its second
strategy) yields the number 42, but the code yields the sentinel — the
code never parses the fence contents as a whole. -/
theorem normalize_strategy_order_cex :
    claimedNormalize fencedFortyTwo = Json.num 42 0 ∧
      parseModelReplyToJson fencedFortyTwo = sentinel fencedFortyTwo ∧
      claimedNormalize fencedFortyTwo ≠ parseModelReplyToJson fencedFortyTwo := by
  refine ⟨rfl, rfl, ?_⟩
  intro h
  have h1 : isRecord (claimedNormalize fencedFortyTwo) = false := rfl
  have h2 : isRecord (parseModelReplyToJson fencedFortyTwo) = true := rfl
  rw [h] at h1
  rw [h2] at h1
  exact Bool.noConfusion h1

/-- C4 (amended): the normalizer is a first-match-wins chain of (1) a
direct truthy JSON parse of the whole reply, then (3) a truthy parse of
the brace-span slice of the working text, where step (2) — fence
extraction, preferring a json-tagged fence — only replaces the working
text and involves no parse attempt of its own; if neither parse succeeds
the raw-reply sentinel is returned, and a later stage is never consulted
when an earlier one succeeds. -/
theorem normalize_strategy_order_amended (reply : String) :
    parseModelReplyToJson reply =
      ((directStrategy reply).orElse (fun _ => braceStrategy reply)).getD
        (sentinel reply) := by
  cases h : directStrategy reply with
  | some j =>
    unfold directStrategy at h
    rw [parseModelReplyToJson_of_direct h]
    rfl
  | none =>
    unfold directStrategy at h
    cases hb : braceSpan (stripFence reply.data) with
    | some jsonSlice =>
      have hbs : braceStrategy reply = truthyParse (String.mk jsonSlice) := by
        unfold braceStrategy
        rw [hb]
      rw [parseModelReplyToJson_of_slice h hb]
      rw [show ((none : Option Json).orElse (fun _ => braceStrategy reply)) =
        braceStrategy reply from rfl]
      rw [hbs]
    | none =>
      have hbs : braceStrategy reply = none := by
        unfold braceStrategy
        rw [hb]
      rw [parseModelReplyToJson_of_nobrace h hb]
      rw [show ((none : Option Json).orElse (fun _ => braceStrategy reply)) =
        braceStrategy reply from rfl]
      rw [hbs]
      rfl

/-- C5: round trip — a reply that already is valid JSON matching the
six-field schema is returned exactly as its direct parse. -/
theorem normalize_roundtrip (reply : String) (j : Json)
    (hp : jsonParse reply = some j) (hs : isResumeRecordJson j = true) :
    parseModelReplyToJson reply = j := by
  have hobj : jsTruthy j = true := by
    cases j with
    | obj fields => rfl
    | null => exact Bool.noConfusion hs
    | bool b => exact Bool.noConfusion hs
    | num m e => exact Bool.noConfusion hs
    | str s => exact Bool.noConfusion hs
    | arr es => exact Bool.noConfusion hs
  have htp : truthyParse reply = some j := by
    unfold truthyParse tryParse
    rw [hp]
    dsimp only
    rw [if_pos hobj]
  exact parseModelReplyToJson_of_direct htp

/-- C5 witness: the concrete six-field record round-trips. -/
theorem normalize_roundtrip_witness :
    jsonParse sampleRecordText = some sampleRecordJson ∧
      isResumeRecordJson sampleRecordJson = true ∧
      parseModelReplyToJson sampleRecordText = sampleRecordJson :=
  ⟨rfl, rfl, normalize_roundtrip sampleRecordText sampleRecordJson rfl rfl⟩

/-- C6 counterexample: the brace-free reply `"42"`是 valid truthy JSON, so
the normalizer returns the number 42, not the sentinel record with the
raw reply as diagnostic. -/
theorem braceless_reply_cex :
    ('{' ∉ "42".data ∧ '}' ∉ "42".data) ∧
      parseModelReplyToJson "42" = Json.num 42 0 ∧
      parseModelReplyToJson "42" ≠ sentinel "42" := by
  refine ⟨by decide, rfl, ?_⟩
  intro h
  have h1 : isRecord (parseModelReplyToJson "42") = false := rfl
  rw [h] at h1
  exact Bool.noConfusion h1

/-- C6 (amended): a brace-free reply that does not itself parse as truthy
JSON yields the sentinel record, whose only field is the raw reply,
without failing. -/
theorem braceless_unparsable_yields_sentinel (reply : String)
    (hnl : '{' ∉ reply.data) (_hnr : '}' ∉ reply.data)
    (hp : truthyParse reply = none) :
    parseModelReplyToJson reply = sentinel reply := by
  have hb : braceSpan (stripFence reply.data) = none :=
    braceSpan_eq_none_of_no_lbrace (fun hmem => hnl (mem_of_stripFence hmem))
  exact parseModelReplyToJson_of_nobrace hp hb

/-- C6 witness: the spec's example brace-free reply yields the sentinel. -/
theorem braceless_unparsable_yields_sentinel_witness :
    parseModelReplyToJson "I could not read this resume." =
      sentinel "I could not read this resume." :=
  braceless_unparsable_yields_sentinel "I could not read this resume."
    (by decide) (by decide) rfl

/-- C7: once the file is read, the extractor dispatches purely on the
lower-cased extension — `.pdf` to the PDF decoder, `.docx` to the DOCX
decoder, anything else to the empty string instead of an error — so the
dispatch is case-insensitive in the extension. -/
theorem extractor_dispatch {β : Type} (env : FsEnv β) (path : String) (buf : β)
    (h : env.readFile path = Except.ok buf) :
    extractTextFromResumeFile env path =
      (if jsToLowerCase (extname path) = ".pdf" then
        (env.pdfText buf).map (fun t => t.getD "")
      else if jsToLowerCase (extname path) = ".docx" then
        (env.docxRawText buf).map (fun t => t.getD "")
      else Except.ok "") := by
  unfold extractTextFromResumeFile
  rw [h]
  dsimp only
  by_cases h1 : jsToLowerCase (extname path) = ".pdf"
  · rw [if_pos h1, if_pos h1]
    cases hpt : env.pdfText buf with
    | error e => rfl
    | ok t => rfl
  · rw [if_neg h1, if_neg h1]
    by_cases h2 : jsToLowerCase (extname path) = ".docx"
    · rw [if_pos h2, if_pos h2]
      cases hdt : env.docxRawText buf with
      | error e => rfl
      | ok t => rfl
    · rw [if_neg h2, if_neg h2]

/-- C7 witness: `cv.PDF` (upper-case extension) takes the PDF path. -/
theorem extractor_dispatch_witness :
    jsToLowerCase (extname "cv.PDF") = ".pdf" ∧
      extractTextFromResumeFile fsSample "cv.PDF" = Except.ok "PDFTEXT" := by
  refine ⟨rfl, ?_⟩
  rw [extractor_dispatch fsSample "cv.PDF" ("content of " ++ "cv.PDF") rfl]
  rfl

/-- C8: initialization is idempotent — a successful `initModel` leaves a
state on which a second call is a no-op with zero loads, a call on an
already-loaded state changes nothing and performs zero loads, and a
successful call from a not-loaded state performs exactly one load. -/
theorem initModel_idempotent (env : LlamaEnv) (s s₁ : LlamaState) (n : Nat)
    (h : initModel env s = (s₁, n, none)) :
    initModel env s₁ = (s₁, 0, none) ∧
      (s.isLoaded = true → s₁ = s ∧ n = 0) ∧
      (s.isLoaded = false → n = 1) := by
  by_cases hl : s.isLoaded = true
  · unfold initModel at h
    rw [if_pos hl] at h
    injection h with hA hB
    injection hB with hC hD
    subst hA
    refine ⟨?_, fun _ => ⟨rfl, hC.symm⟩, fun hlf => absurd hl (by rw [hlf]; simp)⟩
    unfold initModel
    rw [if_pos hl]
  · have hl' : s.isLoaded = false := by
      cases hb : s.isLoaded with
      | true => exact absurd hb hl
      | false => rfl
    unfold initModel at h
    rw [if_neg hl] at h
    cases hr : env.resolveModelPath with
    | error e =>
      rw [hr] at h
      injection h with h1 h2
      injection h2 with h3 h4
      exact Option.noConfusion h4
    | ok modelPath =>
      rw [hr] at h
      dsimp only at h
      cases hg : env.getLlama with
      | error e =>
        rw [hg] at h
        injection h with h1 h2
        injection h2 with h3 h4
        exact Option.noConfusion h4
      | ok llama =>
        rw [hg] at h
        dsimp only at h
        cases hm : env.loadModel llama modelPath with
        | error e =>
          rw [hm] at h
          injection h with h1 h2
          injection h2 with h3 h4
          exact Option.noConfusion h4
        | ok model =>
          rw [hm] at h
          dsimp only at h
          cases hc : env.createContext model with
          | error e =>
            rw [hc] at h
            injection h with h1 h2
            injection h2 with h3 h4
            exact Option.noConfusion h4
          | ok ctx =>
            rw [hc] at h
            dsimp only at h
            cases hn : env.newChatSession ctx with
            | error e =>
              rw [hn] at h
              injection h with h1 h2
              injection h2 with h3 h4
              exact Option.noConfusion h4
            | ok sess =>
              rw [hn] at h
              injection h with h1 h2
              injection h2 with h3 h4
              refine ⟨?_, fun hlt => absurd hlt hl, fun _ => h3.symm⟩
              rw [← h1]
              rfl

/-- C8 witness: loading from the empty state succeeds with one load, and
the second call on the resulting warm state is a no-op. -/
theorem initModel_idempotent_witness :
    initModel lenvSample emptyState = (warmState, 1, none) ∧
      initModel lenvSample warmState = (warmState, 0, none) :=
  ⟨rfl, (initModel_idempotent lenvSample emptyState warmState 1 rfl).1⟩

/-- C9: in every run of the `parse-resume-pdf` handler, each
`chatSession.prompt` in the action trace is immediately preceded by a
`resetChatHistory`, so every document's inference starts from an empty
conversational context. -/
theorem reset_precedes_each_prompt {β : Type} (lenv : LlamaEnv) (env : BatchEnv β)
    (dialogPaths : Option (List String)) (s : LlamaState)
    (given : Option (List String)) :
    promptsResetBefore (parseResumePdfHandler lenv env dialogPaths s given).2.1 = true := by
  unfold parseResumePdfHandler
  dsimp only
  split
  · rfl
  · split
    · rfl
    · split
      · exact prb_processDocs env _
      · exact prb_processDocs env _

/-- C2 counterexample: a 2-document batch in which the second file is
unreadable and no renderer window is open emits zero events, not two. -/
theorem batch_event_count_cex :
    emittedPaths (processDocs envNoWindow ["a.pdf", "b.pdf"]).1 = [] ∧
      ([] : List String) ≠ ["a.pdf", "b.pdf"] := ⟨rfl, by decide⟩

/-- C2 (amended): when a renderer window exists and the per-file loop
completes without error, exactly one event is emitted per input path,
tagged with that path, in input order. -/
theorem batch_emits_in_input_order {β : Type} (env : BatchEnv β) (paths : List String)
    (hw : env.hasWindow = true) (hok : (processDocs env paths).2 = Except.ok ()) :
    emittedPaths (processDocs env paths).1 = paths :=
  emittedPaths_processDocs_ok env hw paths hok

/-- C2 witness: a concrete all-successful 2-document batch emits both
paths in order. -/
theorem batch_emits_in_input_order_witness :
    (processDocs envSample ["a.pdf", "c.docx"]).2 = Except.ok () ∧
      emittedPaths (processDocs envSample ["a.pdf", "c.docx"]).1 =
        ["a.pdf", "c.docx"] :=
  ⟨rfl, batch_emits_in_input_order envSample ["a.pdf", "c.docx"] rfl rfl⟩

/-- C1 counterexample: in the 3-document batch where `b.pdf` cannot be
read, only document 1 produces an event, document 3 is never processed,
and the handler rethrows the error — the batch as a whole fails. -/
theorem partial_failure_cex :
    (parseResumePdfHandler lenvSample envSample none emptyState
        (some ["a.pdf", "b.pdf", "c.pdf"])).2.2 =
      HandlerOutcome.error "ENOENT: no such file" ∧
      emittedPaths (parseResumePdfHandler lenvSample envSample none emptyState
        (some ["a.pdf", "b.pdf", "c.pdf"])).2.1 = ["a.pdf"] := ⟨rfl, rfl⟩

/-- C1 (amended): with a warm session and a renderer window, a failing
document aborts the batch: documents before it still produce their
events, the failing document and all later ones produce none, and the
error propagates to the caller as a batch-level failure. -/
theorem batch_aborts_on_document_failure {β : Type} (lenv : LlamaEnv)
    (env : BatchEnv β) (dialogPaths : Option (List String)) (s : LlamaState)
    (pre post : List String) (p e : String)
    (hw : env.hasWindow = true) (hs : s.isLoaded = true)
    (hpre : ∀ q ∈ pre, ∃ j, processOneDoc env q = Except.ok j)
    (hfail : extractTextFromResumeFile env.fs p = Except.error e) :
    (parseResumePdfHandler lenv env dialogPaths s (some (pre ++ p :: post))).2.2 =
        HandlerOutcome.error e ∧
      emittedPaths
        (parseResumePdfHandler lenv env dialogPaths s
          (some (pre ++ p :: post))).2.1 = pre := by
  obtain ⟨h1, h2⟩ := processDocs_fail_on_doc env hw hfail pre hpre post
  have hne : pre ++ p :: post ≠ [] := by
    cases pre <;> simp
  rw [handler_runs_loop lenv env dialogPaths s (pre ++ p :: post) hne hs]
  dsimp only
  rw [h1]
  exact ⟨rfl, h2⟩

/-- C1 witness: concretely, with `["a.pdf"]` succeeding before the
unreadable `b.pdf` and `["c.pdf"]` after it, the amended statement holds. -/
theorem batch_aborts_on_document_failure_witness :
    (parseResumePdfHandler lenvSample envSample none warmState
        (some (["a.pdf"] ++ "b.pdf" :: ["c.pdf"]))).2.2 =
      HandlerOutcome.error "ENOENT: no such file" ∧
      emittedPaths (parseResumePdfHandler lenvSample envSample none warmState
        (some (["a.pdf"] ++ "b.pdf" :: ["c.pdf"]))).2.1 = ["a.pdf"] :=
  batch_aborts_on_document_failure lenvSample envSample none warmState
    ["a.pdf"] ["c.pdf"] "b.pdf" "ENOENT: no such file" rfl rfl
    (fun q hq => ⟨sentinel "ok", by
      cases hq with
      | head => rfl
      | tail _ h => exact absurd h (List.not_mem_nil q)⟩) rfl

/-- C10: a reply that is valid JSON but parses to a JavaScript-falsy
value is not returned — the `if (parsed)` test rejects it and the
fallback chain continues (ending in the brace-span stage or the
sentinel), so the normalizer never returns the falsy parsed value. -/
theorem falsy_direct_parse_skipped (reply : String) (j : Json)
    (hp : jsonParse reply = some j) (hf : jsTruthy j = false) :
    parseModelReplyToJson reply = (braceStrategy reply).getD (sentinel reply) ∧
      parseModelReplyToJson reply ≠ j := by
  have htp : truthyParse reply = none := by
    unfold truthyParse tryParse
    rw [hp]
    dsimp only
    rw [if_neg (by rw [hf]; exact Bool.false_ne_true)]
  constructor
  · cases hb : braceSpan (stripFence reply.data) with
    | some jsonSlice =>
      rw [parseModelReplyToJson_of_slice htp hb]
      unfold braceStrategy
      rw [hb]
    | none =>
      rw [parseModelReplyToJson_of_nobrace htp hb]
      unfold braceStrategy
      rw [hb]
      rfl
  · intro hEq
    have ht := parseModelReplyToJson_truthy reply
    rw [hEq, hf] at ht
    exact Bool.noConfusion ht

/-- C10 witness: the reply `"null"` parses to the falsy JSON `null` and
the normalizer falls through to the sentinel `{ raw: "null" }`. -/
theorem falsy_direct_parse_skipped_witness :
    jsonParse "null" = some Json.null ∧
      parseModelReplyToJson "null" = sentinel "null" ∧
      parseModelReplyToJson "null" ≠ Json.null :=
  ⟨rfl, Eq.trans (falsy_direct_parse_skipped "null" Json.null rfl rfl).1 rfl,
    (falsy_direct_parse_skipped "null" Json.null rfl rfl).2⟩

end JianliParse
